import Mathlib

set_option maxRecDepth 4000

/-!
Verification of the core of `scan_project.py` (class `ProjectScanner`).

The embedding models Python strings as `List Char`.  A filesystem path under
the scan root is modelled as the list of its path components relative to the
root (the root itself is `[]`); `relPath` rebuilds the string form that
`os.path.relpath(path, self.root_path)` produces and `basename` the one
`os.path.basename(path)` produces.  `fnmatch` is the POSIX semantics of
Python's `fnmatch.fnmatch` (case preserved, `*` and `?` may cross `/`,
bracket classes, no negation patterns).  Fallible I/O is made explicit:
reading the `.gitignore` file yields the lines obtained before a possible
failure, reading a source file either yields its decoded content or fails,
and `ast.parse` is an abstract parameter that may fail (`Option`).
-/

/-- The whitespace test used by Python's `str.strip()` (ASCII part). -/
def isPySpace (c : Char) : Bool :=
  c == ' ' || c == '\t' || c == '\n' || c == '\r' || c == '\x0b' || c == '\x0c'

/-- Python `str.strip()`: drop whitespace from both ends. -/
def stripWs (l : List Char) : List Char :=
  ((l.dropWhile isPySpace).reverse.dropWhile isPySpace).reverse

/-- Python `str.rstrip('/')`: drop every trailing `'/'`. -/
def rstripSlash (l : List Char) : List Char :=
  (l.reverse.dropWhile (fun c => c == '/')).reverse

/-- Scan the tail of a bracket class for its closing `']'`; returns the
member chunk and the remainder of the pattern (with a length bound used
for termination of the matcher).  `none` when the class is unterminated. -/
def findClose : (l : List Char) → Option (List Char × {rest : List Char // rest.length < l.length})
  | [] => none
  | ']' :: rest => some ([], ⟨rest, Nat.lt_succ_self _⟩)
  | c :: rest =>
    match findClose rest with
    | none => none
    | some (ch, ⟨r, hr⟩) => some (c :: ch, ⟨r, Nat.lt_succ_of_lt hr⟩)

/-- Parse the inside of a bracket class, as `fnmatch.translate` does: an
optional leading `'!'` negates, a `']'` right after that is an ordinary
member, then everything up to the next `']'` is the member chunk. -/
def bracketParse : (ps : List Char) → Option (Bool × List Char × {rest : List Char // rest.length ≤ ps.length})
  | '!' :: ']' :: rest2 =>
    match findClose rest2 with
    | none => none
    | some (ch, ⟨r, hr⟩) => some (true, ']' :: ch, ⟨r, by simp only [List.length_cons]; omega⟩)
  | '!' :: rest =>
    match findClose rest with
    | none => none
    | some (ch, ⟨r, hr⟩) => some (true, ch, ⟨r, by simp only [List.length_cons]; omega⟩)
  | ']' :: rest2 =>
    match findClose rest2 with
    | none => none
    | some (ch, ⟨r, hr⟩) => some (false, ']' :: ch, ⟨r, by simp only [List.length_cons]; omega⟩)
  | ps =>
    match findClose ps with
    | none => none
    | some (ch, ⟨r, hr⟩) => some (false, ch, Subtype.mk r (Nat.le_of_lt hr))

/-- Does one member chunk of a bracket class admit a character
(`a-b` ranges, otherwise literal members)? -/
def chunkMatches : List Char → Char → Bool
  | a :: '-' :: b :: rest, c => (decide (a ≤ c) && decide (c ≤ b)) || chunkMatches rest c
  | a :: rest, c => (a == c) || chunkMatches rest c
  | [], _ => false

/-- Shell-glob matching of a whole string against a whole pattern, the
semantics of Python's `fnmatch` on POSIX: `*` matches any run of characters
(including `/`), `?` one character, `[...]`/`[!...]` bracket classes, an
unterminated `[` is a literal. -/
def globMatch : (pat s : List Char) → Bool
  | [], s => s.isEmpty
  | p :: ps, s =>
    if p = '*' then
      match s with
      | [] => globMatch ps []
      | c :: cs => globMatch ps (c :: cs) || globMatch (p :: ps) cs
    else if p = '[' then
      match bracketParse ps with
      | some (neg, chunk, ⟨rest, _hrest⟩) =>
        match s with
        | [] => false
        | c :: cs => (neg != chunkMatches chunk c) && globMatch rest cs
      | none =>
        match s with
        | [] => false
        | c :: cs => (c == '[') && globMatch ps cs
    else if p = '?' then
      match s with
      | [] => false
      | _ :: cs => globMatch ps cs
    else
      match s with
      | [] => false
      | c :: cs => (p == c) && globMatch ps cs
termination_by pat s => pat.length + s.length
decreasing_by
  all_goals simp_wf
  all_goals omega

/-- Python `fnmatch.fnmatch(name, pattern)` (argument order as in Python). -/
def fnmatch (name pat : List Char) : Bool := globMatch pat name

/-- A pattern with no glob metacharacters (`*`, `?`, `[`): it matches only
itself. -/
def noWild (pat : List Char) : Bool :=
  pat.all (fun c => !(c == '*' || c == '?' || c == '['))

/-- The built-in default ignore list of `_load_gitignore`. -/
def default_ignore_patterns : List (List Char) :=
  [".git".toList, ".idea".toList, ".vscode".toList, "__pycache__".toList,
   "*.pyc".toList, "*.pyo".toList, ".DS_Store".toList,
   "venv".toList, "env".toList, ".env".toList]

/-- The default patterns that are bare names (no glob metacharacter). -/
def bare_default_names : List (List Char) :=
  [".git".toList, ".idea".toList, ".vscode".toList, "__pycache__".toList,
   ".DS_Store".toList, "venv".toList, "env".toList, ".env".toList]

/-- Outcome of trying to read the project `.gitignore`: the file may be
absent, or iterating it yields some lines and then either ends normally
(`failed = false`) or raises (`failed = true`; an exception at `open`
is `lines [] true`). -/
inductive GitignoreRead where
  | absent
  | lines (ls : List (List Char)) (failed : Bool)

/-- One line of the ignore file, as the loader's loop body treats it:
strip whitespace; skip blank and `#`-comment lines; otherwise strip
trailing `'/'` and keep the result as a pattern. -/
def gitignoreLine (line : List Char) : Option (List Char) :=
  let stripped := stripWs line
  if stripped = [] then none
  else if stripped.head? == some '#' then none
  else some (rstripSlash stripped)

/-- `ProjectScanner._load_gitignore`: defaults plus the patterns from the
lines that were read; the `Bool` records whether the failure warning was
printed.  An exception during reading is caught, so the lines already
processed stay in the list. -/
def _load_gitignore (file : GitignoreRead) : List (List Char) × Bool :=
  match file with
  | .absent => (default_ignore_patterns, false)
  | .lines ls failed => (default_ignore_patterns ++ ls.filterMap gitignoreLine, failed)

/-- The string `os.path.relpath` would produce for a non-root path given by
its components: components joined with `'/'`. -/
def joinPath : List (List Char) → List Char
  | [] => []
  | [c] => c
  | c :: rest => c ++ '/' :: joinPath rest

/-- `os.path.basename`: the last component (empty for the root). -/
def basename : List (List Char) → List Char
  | [] => []
  | [c] => c
  | _ :: rest => basename rest

/-- `os.path.relpath(path, self.root_path)`: `"."` for the root itself,
otherwise the components joined with `'/'`. -/
def relPath (path : List (List Char)) : List Char :=
  if path = [] then ['.'] else joinPath path

/-- `ProjectScanner._is_ignored`: the root is never ignored; otherwise a
path is ignored when some pattern glob-matches its base name, or its
root-relative path, or — for directories — its base name against the
pattern with trailing `'/'` stripped. -/
def _is_ignored (patterns : List (List Char)) (path : List (List Char)) (is_dir : Bool) : Bool :=
  if relPath path = ['.'] then false
  else
    patterns.any fun pattern =>
      fnmatch (basename path) pattern || fnmatch (relPath path) pattern ||
        (is_dir && fnmatch (basename path) (rstripSlash pattern))

/-- Python AST nodes, reduced to what `_get_definitions` inspects: the
node class (`FunctionDef`, `AsyncFunctionDef`, `ClassDef`, or anything
else) with its name and child nodes. -/
inductive PyNode where
  | functionDef (name : List Char) (body : List PyNode)
  | asyncFunctionDef (name : List Char) (body : List PyNode)
  | classDef (name : List Char) (body : List PyNode)
  | other (body : List PyNode)

/-- `ast.iter_child_nodes`, reduced to the modelled children. -/
def children : PyNode → List PyNode
  | .functionDef _ b => b
  | .asyncFunctionDef _ b => b
  | .classDef _ b => b
  | .other b => b

/-- `ast.walk`: breadth-first traversal of all nodes starting from a
queue (a deque that pops in front and extends with children at the back). -/
def walkBFS : (queue : List PyNode) → List PyNode
  | [] => []
  | n :: queue => n :: walkBFS (queue ++ children n)
termination_by q => sizeOf q
decreasing_by
  simp_wf
  induction queue with
  | nil => cases n <;> simp [children] <;> omega
  | cons a q ih =>
    simp only [List.cons_append, List.cons.sizeOf_spec] at *
    omega

/-- `node.name.startswith('_')`. -/
def startsUnderscore (name : List Char) : Bool := name.head? == some '_'

/-- The visibility prefix chosen for a function node:
`"🔒 "` for a leading underscore, `"⚡ "` otherwise. -/
def visMark (name : List Char) : List Char :=
  if startsUnderscore name then "🔒 ".toList else "⚡ ".toList

/-- The loop body of `_get_definitions`: what one visited node appends to
`definitions` (`none` when the node is neither a function, an async
function, nor a class). -/
def emitNode : PyNode → Option (List Char)
  | .functionDef name _ => some (visMark name ++ "def ".toList ++ name)
  | .asyncFunctionDef name _ => some (visMark name ++ "def ".toList ++ name)
  | .classDef name _ => some ("📦 class ".toList ++ name)
  | .other _ => none

/-- Outcome of `open(file_path, errors="ignore").read()`: the decoded
content, or an I/O failure (decoding itself cannot fail with
`errors="ignore"`). -/
inductive FileRead where
  | ok (content : List Char)
  | readError

/-- `ProjectScanner._get_definitions`, parameterised by `ast.parse`
(abstract: it yields the `Module` node or fails).  Any failure is caught
and yields the empty list; whitespace-only content returns before parsing;
otherwise every node of `ast.walk` contributes via `emitNode`. -/
def _get_definitions (parse : List Char → Option PyNode) (file : FileRead) : List (List Char) :=
  match file with
  | .readError => []
  | .ok content =>
    if stripWs content = [] then []
    else
      match parse content with
      | none => []
      | some tree => (walkBFS [tree]).filterMap emitNode

/-- A constant `ast.parse` stub returning a fixed tree, for concrete runs. -/
def parseConst (t : PyNode) : List Char → Option PyNode := fun _ => some t

/-- An `ast.parse` stub that always fails, modelling a file whose content
raises `SyntaxError` (e.g. an unmatched parenthesis). -/
def parseFail : List Char → Option PyNode := fun _ => none

/-- Module of a file whose only statement is `async def foo(): pass`. -/
def asyncFooTree : PyNode := .other [.asyncFunctionDef ("foo".toList) []]

/-- Module of a file whose only statement is `def foo(): pass`. -/
def defFooTree : PyNode := .other [.functionDef ("foo".toList) []]

/-- Module of a file defining classes `_Hidden` and `Visible`. -/
def twoClassTree : PyNode :=
  .other [.classDef ("_Hidden".toList) [], .classDef ("Visible".toList) []]

/-- Module of a file defining functions `_helper` and `run`. -/
def helperRunTree : PyNode :=
  .other [.functionDef ("_helper".toList) [], .functionDef ("run".toList) []]

/-! ## Helper lemmas -/

/-- The head surviving `dropWhile p` does not satisfy `p`. -/
theorem head?_dropWhile_false {α : Type} (p : α → Bool) (l : List α) (a : α)
    (h : (l.dropWhile p).head? = some a) : p a = false := by
  induction l with
  | nil => simp [List.dropWhile] at h
  | cons x xs ih =>
    rw [List.dropWhile_cons] at h
    by_cases hx : p x = true
    · rw [if_pos hx] at h; exact ih h
    · rw [if_neg hx] at h
      simp only [List.head?_cons, Option.some.injEq] at h
      subst h
      exact Bool.not_eq_true _ |>.mp hx

/-- `rstrip('/')` leaves no trailing slash. -/
theorem getLast?_rstripSlash (l : List Char) : (rstripSlash l).getLast? ≠ some '/' := by
  unfold rstripSlash
  rw [List.getLast?_reverse]
  intro h
  have := head?_dropWhile_false _ _ _ h
  simp at this

/-- `rstrip('/')` is the identity on a string with no trailing slash. -/
theorem rstripSlash_eq_self {l : List Char} (h : l.getLast? ≠ some '/') : rstripSlash l = l := by
  unfold rstripSlash
  cases hl : l.reverse with
  | nil =>
    simp only [List.dropWhile_nil, List.reverse_nil]
    exact (List.reverse_eq_nil_iff.mp hl).symm
  | cons a t =>
    have ha : ¬(a == '/') = true := by
      intro hab
      apply h
      rw [← List.head?_reverse, hl]
      simp only [List.head?_cons, Option.some.injEq]
      exact (beq_iff_eq.mp hab).symm ▸ rfl
    rw [List.dropWhile_cons, if_neg ha, ← hl, List.reverse_reverse]

/-- `List.any` only depends on the values of the predicate on the list. -/
theorem anyCongr {α : Type} {l : List α} {f g : α → Bool}
    (h : ∀ x ∈ l, f x = g x) : l.any f = l.any g := by
  induction l with
  | nil => rfl
  | cons a t ih =>
    simp only [List.any_cons]
    rw [h a (by simp), ih (fun x hx => h x (by simp [hx]))]

/-- The empty pattern matches only the empty string. -/
theorem globMatch_nil (s : List Char) : globMatch [] s = s.isEmpty := by
  unfold globMatch
  rfl

/-- A literal pattern character never matches the empty string. -/
theorem globMatch_cons_nil {p : Char} (ps : List Char)
    (h1 : p ≠ '*') (h2 : p ≠ '[') : globMatch (p :: ps) [] = false := by
  unfold globMatch
  rw [if_neg h1, if_neg h2]
  by_cases h3 : p = '?'
  · rw [if_pos h3]
  · rw [if_neg h3]

/-- A literal pattern character matches exactly itself and passes on. -/
theorem globMatch_cons_cons {p c : Char} (ps cs : List Char)
    (h1 : p ≠ '*') (h2 : p ≠ '[') (h3 : p ≠ '?') :
    globMatch (p :: ps) (c :: cs) = ((p == c) && globMatch ps cs) := by
  conv_lhs => rw [globMatch.eq_def]
  dsimp only
  rw [if_neg h1, if_neg h2, if_neg h3]

/-- A pattern without glob metacharacters matches exactly itself. -/
theorem globMatch_noWild (pat : List Char) (hw : noWild pat = true) :
    ∀ s, globMatch pat s = true ↔ pat = s := by
  induction pat with
  | nil =>
    intro s
    cases s with
    | nil => simp [globMatch_nil]
    | cons c cs => simp [globMatch_nil]
  | cons p ps ih =>
    rw [noWild, List.all_cons, Bool.and_eq_true] at hw
    obtain ⟨hp, hps⟩ := hw
    have h1 : p ≠ '*' := by intro h; subst h; simp at hp
    have h3 : p ≠ '?' := by intro h; subst h; simp at hp
    have h2 : p ≠ '[' := by intro h; subst h; simp at hp
    have hw' : noWild ps = true := hps
    intro s
    cases s with
    | nil =>
      rw [globMatch_cons_nil ps h1 h2]
      simp
    | cons c cs =>
      rw [globMatch_cons_cons ps cs h1 h2 h3]
      simp only [Bool.and_eq_true, beq_iff_eq, List.cons.injEq]
      rw [ih hw' cs]

/-- The base name of a non-root path is one of its components. -/
theorem basename_mem : ∀ (p : List (List Char)), p ≠ [] → basename p ∈ p := by
  intro p
  induction p with
  | nil => intro h; exact absurd rfl h
  | cons a t ih =>
    intro _
    cases t with
    | nil => simp [basename]
    | cons b t' =>
      have hb : basename (a :: b :: t') = basename (b :: t') := rfl
      rw [hb]
      exact List.mem_cons_of_mem a (ih (by simp))

/-- Joining at least two components puts a `'/'` in the result. -/
theorem slash_mem_joinPath (a b : List Char) (t : List (List Char)) :
    ('/' : Char) ∈ joinPath (a :: b :: t) := by
  have : joinPath (a :: b :: t) = a ++ '/' :: joinPath (b :: t) := rfl
  rw [this]
  exact List.mem_append_right a (List.mem_cons_self _ _)

/-- A path whose first component is non-empty joins to a non-empty string. -/
theorem joinPath_ne_nil (a : List Char) (t : List (List Char)) (ha : a ≠ []) :
    joinPath (a :: t) ≠ [] := by
  cases t with
  | nil => simpa [joinPath] using ha
  | cons b t' =>
    have : joinPath (a :: b :: t') = a ++ '/' :: joinPath (b :: t') := rfl
    rw [this]
    simp

/-- A kept ignore-file line becomes its stripped form with trailing `'/'`
removed. -/
theorem gitignoreLine_some {line patt : List Char}
    (h : gitignoreLine line = some patt) : patt = rstripSlash (stripWs line) := by
  unfold gitignoreLine at h
  by_cases h1 : stripWs line = []
  · simp [h1] at h
  · rw [if_neg h1] at h
    by_cases h2 : ((stripWs line).head? == some '#') = true
    · simp [h2] at h
    · rw [if_neg h2] at h
      exact (Option.some.injEq _ _ ▸ h).symm

/-- No pattern produced by the loader ends in a `'/'`. -/
theorem loaded_no_trailing (file : GitignoreRead) (pat : List Char)
    (h : pat ∈ (_load_gitignore file).1) : pat.getLast? ≠ some '/' := by
  have hdef : ∀ q ∈ default_ignore_patterns, q.getLast? ≠ some '/' := by decide
  cases file with
  | absent => exact hdef pat h
  | lines ls failed =>
    rcases List.mem_append.mp h with h' | h'
    · exact hdef pat h'
    · rcases List.mem_filterMap.mp h' with ⟨l, _, hl⟩
      rw [gitignoreLine_some hl]
      exact getLast?_rstripSlash _

/-! ## Claim theorems -/

/-- Claim C3: for every input file, if parsing fails the extractor returns
the empty sequence (never a partially filled one), and a read failure is
likewise caught; no exception reaches the caller (the function is total). -/
theorem c3_parse_failure_yields_empty :
    (∀ (parse : List Char → Option PyNode) (content : List Char),
        parse content = none → _get_definitions parse (.ok content) = []) ∧
    (∀ parse, _get_definitions parse .readError = []) := by
  constructor
  · intro parse content h
    unfold _get_definitions
    dsimp only
    rw [h]
    split <;> rfl
  · intro parse
    rfl

/-- Witness for C3 at a concrete syntactically invalid file `"x("`. -/
theorem c3_parse_failure_yields_empty_witness :
    (parseFail ("x(".toList) = none) ∧
      _get_definitions parseFail (.ok ("x(".toList)) = [] :=
  ⟨rfl, c3_parse_failure_yields_empty.1 parseFail ("x(".toList) rfl⟩

/-- Claim C8: whitespace-only content yields the empty list for every
possible parser — the parse step is never consulted. -/
theorem c8_whitespace_yields_empty (parse : List Char → Option PyNode)
    (content : List Char) (h : stripWs content = []) :
    _get_definitions parse (.ok content) = [] := by
  unfold _get_definitions
  dsimp only
  rw [if_pos h]

/-- Witness for C8 at the concrete whitespace-only content `"  \n\t "`. -/
theorem c8_whitespace_yields_empty_witness :
    (stripWs ("  \n\t ".toList) = []) ∧
      _get_definitions (parseConst defFooTree) (.ok ("  \n\t ".toList)) = [] :=
  ⟨by decide, c8_whitespace_yields_empty (parseConst defFooTree) _ (by decide)⟩

/-- Counterexample to claim C5: when reading the ignore file fails after
the line `build` has already been processed, the loaded set is *not* the
defaults only — the pattern from the unreadable file is kept. -/
theorem c5_counterexample :
    (_load_gitignore (.lines ["build".toList] true)).2 = true ∧
    "build".toList ∈ (_load_gitignore (.lines ["build".toList] true)).1 ∧
    (_load_gitignore (.lines ["build".toList] true)).1 ≠ default_ignore_patterns :=
  ⟨rfl, by decide, by decide⟩

/-- Claim C5 as amended: on a read failure the warning is reported and the
loaded set is the defaults plus exactly the patterns from the lines read
before the failure: the set equals the defaults followed by precisely the
kept form of each successfully read line (so every such pattern is
retained, and nothing else is added); when the failure precedes any line
(e.g. at `open`), defaults only. -/
theorem c5_amended_read_failure :
    (∀ ls, _load_gitignore (.lines ls true) =
        (default_ignore_patterns ++ ls.filterMap gitignoreLine, true)) ∧
    (_load_gitignore (.lines [] true)).1 = default_ignore_patterns ∧
    (∀ ls l patt, l ∈ ls → gitignoreLine l = some patt →
        patt ∈ (_load_gitignore (.lines ls true)).1) ∧
    ∀ ls patt, patt ∈ (_load_gitignore (.lines ls true)).1 →
      patt ∈ default_ignore_patterns ∨ ∃ l ∈ ls, gitignoreLine l = some patt := by
  refine ⟨fun ls => rfl, by simp [_load_gitignore], ?_, ?_⟩
  · intro ls l patt hl hp
    exact List.mem_append.mpr (Or.inr (List.mem_filterMap.mpr ⟨l, hl, hp⟩))
  · intro ls patt h
    rcases List.mem_append.mp h with h' | h'
    · exact Or.inl h'
    · exact Or.inr (List.mem_filterMap.mp h')

/-- Witness for the amended C5 at the concrete line list `["build"]`:
the read line's pattern is retained, and every loaded pattern is a
default or comes from a read line. -/
theorem c5_amended_read_failure_witness :
    ("build".toList ∈ ["build".toList]) ∧
    (gitignoreLine ("build".toList) = some ("build".toList)) ∧
    ("build".toList ∈ (_load_gitignore (.lines ["build".toList] true)).1) ∧
      ("build".toList ∈ default_ignore_patterns ∨
        ∃ l ∈ ["build".toList], gitignoreLine l = some ("build".toList)) :=
  ⟨by decide, by decide,
    c5_amended_read_failure.2.2.1 ["build".toList] ("build".toList) ("build".toList)
      (by decide) (by decide),
    c5_amended_read_failure.2.2.2 ["build".toList] ("build".toList) (by decide)⟩

/-- Claim C7: a project ignore file containing the line `build/` loads to
the same pattern set as one containing `build`, and hence `is_ignored`
agrees on every path. -/
theorem c7_trailing_slash_normalized :
    _load_gitignore (.lines ["build/".toList] false) =
      _load_gitignore (.lines ["build".toList] false) ∧
    ∀ p d, _is_ignored (_load_gitignore (.lines ["build/".toList] false)).1 p d =
      _is_ignored (_load_gitignore (.lines ["build".toList] false)).1 p d := by
  have h : _load_gitignore (.lines ["build/".toList] false) =
      _load_gitignore (.lines ["build".toList] false) := by decide
  exact ⟨h, fun p d => by rw [h]⟩

/-- Claim C9: for every pattern set the loader can produce, `_is_ignored`
does not depend on the `is_dir` flag (loaded patterns never end in `'/'`,
so the directory-only rule coincides with the base-name rule). -/
theorem c9_is_dir_irrelevant (file : GitignoreRead) (p : List (List Char)) :
    _is_ignored (_load_gitignore file).1 p true =
      _is_ignored (_load_gitignore file).1 p false := by
  unfold _is_ignored
  split
  · rfl
  · apply anyCongr
    intro pat hmem
    rw [rstripSlash_eq_self (loaded_no_trailing file pat hmem)]
    cases h1 : fnmatch (basename p) pat <;>
      cases h2 : fnmatch (relPath p) pat <;> simp

/-- Claim C10: a line consisting of `/` loads as the empty pattern, and the
empty pattern never changes the outcome of `_is_ignored` on a path with
non-empty components. -/
theorem c10_empty_pattern_no_effect :
    gitignoreLine ("/".toList) = some [] ∧
    ∀ (pats : List (List Char)) (p : List (List Char)) (d : Bool),
      (∀ c ∈ p, c ≠ ([] : List Char)) →
      _is_ignored (pats ++ [[]]) p d = _is_ignored pats p d := by
  refine ⟨by decide, ?_⟩
  intro pats p d hcomp
  unfold _is_ignored
  split
  · rfl
  · rename_i hroot
    rw [List.any_append]
    have hpne : p ≠ [] := by
      intro h
      exact hroot (by rw [h]; rfl)
    have hbase : basename p ≠ [] := hcomp _ (basename_mem p hpne)
    have hrel : relPath p ≠ [] := by
      cases p with
      | nil => exact absurd rfl hpne
      | cons a t =>
        have : relPath (a :: t) = joinPath (a :: t) := rfl
        rw [this]
        exact joinPath_ne_nil a t (hcomp a (by simp))
    have hone : [([] : List Char)].any (fun pattern =>
        fnmatch (basename p) pattern || fnmatch (relPath p) pattern ||
          (d && fnmatch (basename p) (rstripSlash pattern))) = false := by
      simp only [List.any_cons, List.any_nil, Bool.or_false]
      have hb : fnmatch (basename p) [] = false := by
        rw [fnmatch, globMatch_nil]
        exact List.isEmpty_eq_false_iff_exists_mem.mpr
          (match basename p, hbase with
            | c :: cs, _ => ⟨c, by simp⟩)
      have hr : fnmatch (relPath p) [] = false := by
        rw [fnmatch, globMatch_nil]
        exact List.isEmpty_eq_false_iff_exists_mem.mpr
          (match relPath p, hrel with
            | c :: cs, _ => ⟨c, by simp⟩)
      have hs : rstripSlash ([] : List Char) = [] := rfl
      rw [hs, hb, hr]
      simp
    rw [hone]
    simp

/-- Witness for C10 at the concrete pattern set `["venv"]` and path `a`. -/
theorem c10_empty_pattern_no_effect_witness :
    (∀ c ∈ [("a".toList : List Char)], c ≠ ([] : List Char)) ∧
      _is_ignored (["venv".toList] ++ [[]]) [("a".toList : List Char)] true =
        _is_ignored ["venv".toList] [("a".toList : List Char)] true :=
  ⟨by decide,
    c10_empty_pattern_no_effect.2 ["venv".toList] [("a".toList : List Char)] true (by decide)⟩

/-- Claim C4: with the single separator-containing pattern `src/tmp`,
`_is_ignored` holds exactly for the path whose root-relative form is
`src/tmp` — for every path with slash-free components, every `is_dir`
flag, and independently of the scan root (paths are root-relative). -/
theorem c4_src_tmp_exact (p : List (List Char)) (d : Bool) (hne : p ≠ [])
    (hcomp : ∀ c ∈ p, ('/' : Char) ∉ c) :
    (_is_ignored ["src/tmp".toList] p d = true ↔ relPath p = "src/tmp".toList) := by
  have hnw : noWild ("src/tmp".toList) = true := by decide
  unfold _is_ignored
  by_cases hroot : relPath p = ['.']
  · rw [if_pos hroot, hroot]
    simp only [Bool.false_eq_true, false_iff]
    decide
  · rw [if_neg hroot]
    simp only [List.any_cons, List.any_nil, Bool.or_false]
    have hb : fnmatch (basename p) ("src/tmp".toList) = false := by
      cases hfb : fnmatch (basename p) ("src/tmp".toList) with
      | false => rfl
      | true =>
        exfalso
        have heq : "src/tmp".toList = basename p :=
          (globMatch_noWild _ hnw _).mp hfb
        have hsl : ('/' : Char) ∈ basename p := by
          rw [← heq]; decide
        exact hcomp _ (basename_mem p hne) hsl
    have hs : rstripSlash ("src/tmp".toList) = "src/tmp".toList := by decide
    rw [hs, hb, Bool.false_or, Bool.and_false, Bool.or_false]
    rw [fnmatch, globMatch_noWild _ hnw]
    exact eq_comm

/-- Witness for C4 at the concrete path `other/tmp` (same base name,
different location): not ignored. -/
theorem c4_src_tmp_exact_witness :
    ((["other".toList, "tmp".toList] : List (List Char)) ≠ []) ∧
    (∀ c ∈ (["other".toList, "tmp".toList] : List (List Char)), ('/' : Char) ∉ c) ∧
    _is_ignored ["src/tmp".toList] ["other".toList, "tmp".toList] true = false := by
  refine ⟨by decide, by decide, ?_⟩
  have h := c4_src_tmp_exact ["other".toList, "tmp".toList] true (by decide) (by decide)
  cases hv : _is_ignored ["src/tmp".toList] ["other".toList, "tmp".toList] true with
  | false => rfl
  | true =>
    have := h.mp hv
    exact absurd this (by decide)

/-- Claim C6: every bare-name built-in default pattern ignores any path
whose base name equals it, at any depth below the root, for files and
directories alike. -/
theorem c6_bare_defaults_any_depth (pat : List Char) (p : List (List Char)) (d : Bool)
    (h1 : pat ∈ bare_default_names) (h2 : p ≠ []) (h3 : basename p = pat) :
    _is_ignored default_ignore_patterns p d = true := by
  have hndot : pat ≠ ['.'] :=
    (by decide : ∀ x ∈ bare_default_names, x ≠ ['.']) pat h1
  have hginv : relPath p ≠ ['.'] := by
    cases p with
    | nil => exact absurd rfl h2
    | cons a t =>
      cases t with
      | nil =>
        have hra : relPath [a] = a := rfl
        have hba : basename [a] = a := rfl
        rw [hra]
        rw [hba] at h3
        rw [h3]
        exact hndot
      | cons b t' =>
        intro hdot
        have hs : ('/' : Char) ∈ relPath (a :: b :: t') := by
          have : relPath (a :: b :: t') = joinPath (a :: b :: t') := rfl
          rw [this]
          exact slash_mem_joinPath a b t'
        rw [hdot] at hs
        simp at hs
  unfold _is_ignored
  rw [if_neg hginv, List.any_eq_true]
  refine ⟨pat, ?_, ?_⟩
  · exact (by decide : ∀ x ∈ bare_default_names, x ∈ default_ignore_patterns) pat h1
  · have hself : fnmatch pat pat = true := by
      rw [fnmatch]
      exact (globMatch_noWild pat
        ((by decide : ∀ x ∈ bare_default_names, noWild x = true) pat h1) pat).mpr rfl
    rw [h3, hself]
    simp

/-- Witness for C6: `lib/sub/__pycache__`, a directory two levels deep,
is ignored by the defaults. -/
theorem c6_bare_defaults_any_depth_witness :
    ("__pycache__".toList ∈ bare_default_names) ∧
    ((["lib".toList, "sub".toList, "__pycache__".toList] : List (List Char)) ≠ []) ∧
    basename ["lib".toList, "sub".toList, "__pycache__".toList] = "__pycache__".toList ∧
    _is_ignored default_ignore_patterns
      ["lib".toList, "sub".toList, "__pycache__".toList] true = true :=
  ⟨by decide, by decide, by decide,
    c6_bare_defaults_any_depth ("__pycache__".toList)
      ["lib".toList, "sub".toList, "__pycache__".toList] true
      (by decide) (by decide) (by decide)⟩

/-- When content is non-blank and parsing succeeds, the extractor is the
emit-filter of the breadth-first walk. -/
theorem getDefinitions_some (parse : List Char → Option PyNode) (content : List Char)
    (tree : PyNode) (hp : parse content = some tree) (hs : stripWs content ≠ []) :
    _get_definitions parse (.ok content) = (walkBFS [tree]).filterMap emitNode := by
  unfold _get_definitions
  dsimp only
  rw [if_neg hs, hp]

/-- Counterexample to claim C1: `async def foo` is emitted exactly as
`def foo` — the rendering `"⚡ def foo"` is identical for both node kinds,
so there is no distinct AsyncFunction tag. -/
theorem c1_counterexample :
    _get_definitions (parseConst asyncFooTree) (.ok ("async def foo(): pass".toList)) =
      _get_definitions (parseConst defFooTree) (.ok ("def foo(): pass".toList)) ∧
    _get_definitions (parseConst asyncFooTree) (.ok ("async def foo(): pass".toList)) =
      ["⚡ def foo".toList] := by
  have h1 : _get_definitions (parseConst asyncFooTree) (.ok ("async def foo(): pass".toList)) =
      (walkBFS [asyncFooTree]).filterMap emitNode :=
    getDefinitions_some _ _ _ rfl (by decide)
  have h2 : _get_definitions (parseConst defFooTree) (.ok ("def foo(): pass".toList)) =
      (walkBFS [defFooTree]).filterMap emitNode :=
    getDefinitions_some _ _ _ rfl (by decide)
  have e1 : (walkBFS [asyncFooTree]).filterMap emitNode = ["⚡ def foo".toList] := by
    simp only [asyncFooTree, walkBFS, children, List.nil_append, List.append_nil]
    decide
  have e2 : (walkBFS [defFooTree]).filterMap emitNode = ["⚡ def foo".toList] := by
    simp only [defFooTree, walkBFS, children, List.nil_append, List.append_nil]
    decide
  exact ⟨by rw [h1, h2, e1, e2], by rw [h1, e1]⟩

/-- Claim C1 as amended: every asynchronous function definition found by
the walk is emitted as a Definition, but with the same `def` function tag
and the same rendering an ordinary function of that name gets — async and
ordinary functions are not distinguished in the output. -/
theorem c1_amended_async_same_as_def
    (parse : List Char → Option PyNode) (content : List Char) (tree : PyNode)
    (name : List Char) (body body2 : List PyNode)
    (hp : parse content = some tree) (hs : stripWs content ≠ [])
    (hmem : PyNode.asyncFunctionDef name body ∈ walkBFS [tree]) :
    (visMark name ++ "def ".toList ++ name) ∈ _get_definitions parse (.ok content) ∧
    emitNode (PyNode.asyncFunctionDef name body) = emitNode (PyNode.functionDef name body2) := by
  rw [getDefinitions_some parse content tree hp hs]
  exact ⟨List.mem_filterMap.mpr ⟨_, hmem, rfl⟩, rfl⟩

/-- Witness for the amended C1 at the concrete module `async def foo`. -/
theorem c1_amended_async_same_as_def_witness :
    (parseConst asyncFooTree ("async def foo(): pass".toList) = some asyncFooTree) ∧
    (stripWs ("async def foo(): pass".toList) ≠ []) ∧
    (PyNode.asyncFunctionDef ("foo".toList) [] ∈ walkBFS [asyncFooTree]) ∧
    ((visMark ("foo".toList) ++ "def ".toList ++ "foo".toList) ∈
      _get_definitions (parseConst asyncFooTree) (.ok ("async def foo(): pass".toList))) := by
  have hmem : PyNode.asyncFunctionDef ("foo".toList) [] ∈ walkBFS [asyncFooTree] := by
    simp [walkBFS, asyncFooTree, children]
  exact ⟨rfl, by decide, hmem,
    (c1_amended_async_same_as_def (parseConst asyncFooTree)
      ("async def foo(): pass".toList) asyncFooTree ("foo".toList) [] []
      rfl (by decide) hmem).1⟩

/-- Counterexample to claim C2: class Definitions carry no visibility
marker — the underscore-named class `_Hidden` is rendered with the very
same fixed `"📦 "` marker as the public class `Visible`, not with the
Private marker `"🔒 "`. -/
theorem c2_counterexample :
    _get_definitions (parseConst twoClassTree)
        (.ok ("class _Hidden: pass\nclass Visible: pass".toList)) =
      ["📦 class _Hidden".toList, "📦 class Visible".toList] ∧
    ("📦 class _Hidden".toList.take 2 = "📦 class Visible".toList.take 2) ∧
    ("📦 class _Hidden".toList.take 2 ≠ "🔒 ".toList) := by
  refine ⟨?_, by decide, by decide⟩
  rw [getDefinitions_some _ _ _ rfl (by decide)]
  simp only [twoClassTree, walkBFS, children, List.nil_append, List.append_nil]
  decide

/-- Claim C2 as amended: function and async-function Definitions carry a
visibility marker — Private (`"🔒 "`) exactly when the name begins with an
underscore, else Public (`"⚡ "`) — while class Definitions are rendered
with the fixed class marker `"📦 "` independent of their name. -/
theorem c2_amended_visibility
    (parse : List Char → Option PyNode) (content : List Char) (tree : PyNode)
    (name : List Char) (body : List PyNode)
    (hp : parse content = some tree) (hs : stripWs content ≠ []) :
    (PyNode.functionDef name body ∈ walkBFS [tree] →
      ((if name.head? = some '_' then "🔒 ".toList else "⚡ ".toList) ++
        "def ".toList ++ name) ∈ _get_definitions parse (.ok content)) ∧
    (PyNode.asyncFunctionDef name body ∈ walkBFS [tree] →
      ((if name.head? = some '_' then "🔒 ".toList else "⚡ ".toList) ++
        "def ".toList ++ name) ∈ _get_definitions parse (.ok content)) ∧
    (PyNode.classDef name body ∈ walkBFS [tree] →
      ("📦 class ".toList ++ name) ∈ _get_definitions parse (.ok content)) := by
  rw [getDefinitions_some parse content tree hp hs]
  have hvis : visMark name =
      (if name.head? = some '_' then "🔒 ".toList else "⚡ ".toList) := by
    by_cases h : name.head? = some '_' <;>
      simp [visMark, startsUnderscore, h]
  refine ⟨?_, ?_, ?_⟩
  · intro hmem
    exact List.mem_filterMap.mpr ⟨_, hmem, by rw [emitNode, hvis]⟩
  · intro hmem
    exact List.mem_filterMap.mpr ⟨_, hmem, by rw [emitNode, hvis]⟩
  · intro hmem
    exact List.mem_filterMap.mpr ⟨_, hmem, rfl⟩

/-- Witness for the amended C2 at the concrete module defining `_helper`
and `run`: the first is rendered Private, the second Public. -/
theorem c2_amended_visibility_witness :
    (("🔒 def _helper".toList) ∈ _get_definitions (parseConst helperRunTree)
        (.ok ("def _helper(): pass\ndef run(): pass".toList))) ∧
    (("⚡ def run".toList) ∈ _get_definitions (parseConst helperRunTree)
        (.ok ("def _helper(): pass\ndef run(): pass".toList))) := by
  have hm1 : PyNode.functionDef ("_helper".toList) [] ∈ walkBFS [helperRunTree] := by
    simp [walkBFS, helperRunTree, children]
  have hm2 : PyNode.functionDef ("run".toList) [] ∈ walkBFS [helperRunTree] := by
    simp [walkBFS, helperRunTree, children]
  have h1 := (c2_amended_visibility (parseConst helperRunTree)
    ("def _helper(): pass\ndef run(): pass".toList) helperRunTree
    ("_helper".toList) [] rfl (by decide)).1 hm1
  have h2 := (c2_amended_visibility (parseConst helperRunTree)
    ("def _helper(): pass\ndef run(): pass".toList) helperRunTree
    ("run".toList) [] rfl (by decide)).1 hm2
  constructor
  · have e : ((if ("_helper".toList).head? = some '_' then "🔒 ".toList else "⚡ ".toList) ++
        "def ".toList ++ "_helper".toList) = "🔒 def _helper".toList := by decide
    rw [← e]
    exact h1
  · have e : ((if ("run".toList).head? = some '_' then "🔒 ".toList else "⚡ ".toList) ++
        "def ".toList ++ "run".toList) = "⚡ def run".toList := by decide
    rw [← e]
    exact h2
